import Mathlib

/-!
Verification development for the AgenticOCR extraction-assessment-retry engine.

The definitions below are a shallow embedding of `src/ocr_agent.py` and
`src/openai_extractor.py`:
- Python values handed around by the engine (None / str / list) become the
  inductive `Value`;
- Python dicts become association lists `List (String × _)` with insertion-order
  semantics (`dlookup` finds the first binding, `dset` replaces the first
  binding in place or appends at the end, exactly like a Python dict that has
  no duplicate keys);
- Python floats used for confidences and scores become exact rationals `ℚ`
  (the engine only compares, maxes and takes small weighted sums of them);
- the regular expressions of `FieldValidator` become executable character-list
  matchers, translated pattern by pattern;
- the provider (`OCRExtractor.extract_fields_from_image`) is external; its
  per-call outcome is modelled as an `Except`/response value passed in, and the
  orchestrator consumes one response per page and one per retry attempt.
-/

/-- A Python value as used by the engine: `None`, a string, or a list
(element structure beyond emptiness is irrelevant to the engine, lists of
strings suffice). -/
inductive Value where
  | vNone : Value
  | vStr : String → Value
  | vList : List String → Value
  deriving DecidableEq, Repr

/-- Python `str(value)` as applied by the validators before regex matching. -/
def pyStr (v : Value) : String :=
  match v with
  | .vNone => "None"
  | .vStr s => s
  | .vList xs =>
    let q := String.singleton (Char.ofNat 39)
    "[" ++ String.intercalate ", " (xs.map (fun s => q ++ s ++ q)) ++ "]"

/-- Python `str.strip()`: drop leading and trailing whitespace. -/
def py_strip_chars (cs : List Char) : List Char :=
  ((cs.dropWhile Char.isWhitespace).reverse.dropWhile Char.isWhitespace).reverse

/-- `FieldValidator.is_empty`: None, empty / whitespace-only string, or empty
list. -/
def is_empty (v : Value) : Bool :=
  match v with
  | .vNone => true
  | .vStr s => (py_strip_chars s.toList).isEmpty
  | .vList xs => xs.length == 0

/-- `FieldStatus` enumeration. -/
inductive FieldStatus where
  | filled
  | unfilled
  | low_confidence
  | invalid
  | needs_review
  deriving DecidableEq, Repr

/-- `FieldType` enumeration. -/
inductive FieldType where
  | text
  | number
  | currency
  | date
  | email
  | phone
  | iban
  | address
  | percentage
  | boolean
  deriving DecidableEq, Repr

/-- `FieldMetadata` dataclass. -/
structure FieldMetadata where
  name : String
  field_type : FieldType := .text
  required : Bool := false
  validation_rules : List String := []
  min_confidence : ℚ := mkRat 6 10
  description : String := ""
  deriving DecidableEq, Repr

/-- `FieldResult` dataclass. -/
structure FieldResult where
  name : String
  value : Value
  confidence : ℚ := 0
  status : FieldStatus := .unfilled
  validation_errors : List String := []
  extraction_attempts : Nat := 1
  source_page : Option Nat := none
  notes : String := ""
  deriving DecidableEq, Repr

/-- `ExtractionReport` dataclass. -/
structure ExtractionReport where
  total_fields : Nat := 0
  filled_fields : Nat := 0
  unfilled_fields : Nat := 0
  low_confidence_fields : Nat := 0
  invalid_fields : Nat := 0
  needs_review_fields : Nat := 0
  average_confidence : ℚ := 0
  flagged_field_names : List String := []
  field_results : List (String × FieldResult) := []
  deriving DecidableEq, Repr

/-- `ExtractionReport.completion_rate`. -/
def completion_rate (r : ExtractionReport) : ℚ :=
  if r.total_fields = 0 then 0
  else ((r.filled_fields : ℚ) / (r.total_fields : ℚ)) * 100

/-- `ExtractionReport.quality_score`. -/
def quality_score (r : ExtractionReport) : ℚ :=
  if r.total_fields = 0 then 0
  else
    let filled_weight : ℚ := 5/10
    let confidence_weight : ℚ := 3/10
    let validation_weight : ℚ := 2/10
    let filled_score := ((r.filled_fields : ℚ) / (r.total_fields : ℚ)) * 100
    let confidence_score := r.average_confidence * 100
    let validation_score :=
      (((r.total_fields : ℚ) - (r.invalid_fields : ℚ)) / (r.total_fields : ℚ)) * 100
    filled_score * filled_weight + confidence_score * confidence_weight +
      validation_score * validation_weight

/-- First binding for a key in an association list (Python dict lookup). -/
def dlookup {α : Type} : List (String × α) → String → Option α
  | [], _ => none
  | p :: rest, k => if p.1 = k then some p.2 else dlookup rest k

/-- Python dict assignment: replace the first binding in place, or append. -/
def dset {α : Type} : List (String × α) → String → α → List (String × α)
  | [], k, v => [(k, v)]
  | p :: rest, k, v => if p.1 = k then (k, v) :: rest else p :: dset rest k v

/-- Regex `^\d{4}-\d{2}-\d{2}$` from `validate_date`. -/
def match_date_iso (cs : List Char) : Bool :=
  match cs with
  | [a, b, c, d, e, f, g, h, i, j] =>
    a.isDigit && b.isDigit && c.isDigit && d.isDigit && e == '-' &&
    f.isDigit && g.isDigit && h == '-' && i.isDigit && j.isDigit
  | _ => false

/-- Regex `^\d{2}/\d{2}/\d{4}$` from `validate_date`. -/
def match_date_dmy_slash (cs : List Char) : Bool :=
  match cs with
  | [a, b, e, c, d, f, g, h, i, j] =>
    a.isDigit && b.isDigit && e == '/' && c.isDigit && d.isDigit && f == '/' &&
    g.isDigit && h.isDigit && i.isDigit && j.isDigit
  | _ => false

/-- Regex `^\d{2}-\d{2}-\d{4}$` from `validate_date`. -/
def match_date_dmy_dash (cs : List Char) : Bool :=
  match cs with
  | [a, b, e, c, d, f, g, h, i, j] =>
    a.isDigit && b.isDigit && e == '-' && c.isDigit && d.isDigit && f == '-' &&
    g.isDigit && h.isDigit && i.isDigit && j.isDigit
  | _ => false

/-- Consume one or more whitespace characters (regex fragment `\s+`). -/
def drop_ws1 (cs : List Char) : Option (List Char) :=
  match cs with
  | c :: rest => if c.isWhitespace then some (rest.dropWhile Char.isWhitespace) else none
  | [] => none

/-- Regex `^[A-Za-z]{3}\s+\d{1,2},?\s+\d{4}$` from `validate_date`
("Jan 1, 2024" style).  The character classes of adjacent fragments are
disjoint, so the greedy match is deterministic. -/
def match_date_text (cs : List Char) : Bool :=
  match cs with
  | a :: b :: c :: rest =>
    if a.isAlpha && b.isAlpha && c.isAlpha then
      match drop_ws1 rest with
      | some (d :: rest2) =>
        if d.isDigit then
          let rest3 := match rest2 with
            | e :: r => if e.isDigit then r else rest2
            | [] => rest2
          let rest4 := match rest3 with
            | ',' :: r => r
            | _ => rest3
          match drop_ws1 rest4 with
          | some [y1, y2, y3, y4] => y1.isDigit && y2.isDigit && y3.isDigit && y4.isDigit
          | _ => false
        else false
      | _ => false
    else false
  | _ => false

/-- Continue a digit run, allowing single underscores between digits as
Python's `float` literal syntax does. -/
def chomp_digit_run : List Char → List Char
  | c :: rest =>
    if c.isDigit then chomp_digit_run rest
    else if c = '_' then
      match rest with
      | d :: rest2 => if d.isDigit then chomp_digit_run rest2 else c :: rest
      | [] => c :: rest
    else c :: rest
  | [] => []

/-- Consume one or more digits (with Python underscore grouping). -/
def chomp_digits (cs : List Char) : Option (List Char) :=
  match cs with
  | c :: rest => if c.isDigit then some (chomp_digit_run rest) else none
  | [] => none

/-- Mantissa of a Python float literal: `digits [. digits?] | . digits`. -/
def float_mantissa (cs : List Char) : Option (List Char) :=
  match chomp_digits cs with
  | some rest =>
    match rest with
    | '.' :: r2 =>
      match chomp_digits r2 with
      | some r3 => some r3
      | none => some r2
    | _ => some rest
  | none =>
    match cs with
    | '.' :: r2 => chomp_digits r2
    | _ => none

/-- Exponent of a Python float literal: `[eE] [+-]? digits`. -/
def float_exponent (cs : List Char) : Option (List Char) :=
  match cs with
  | c :: rest =>
    if c == 'e' || c == 'E' then
      let rest2 := match rest with
        | s :: r => if s == '+' || s == '-' then r else rest
        | [] => rest
      chomp_digits rest2
    else none
  | [] => none

/-- Whether Python `float(s)` succeeds: optional sign, then a float literal
or a case-insensitive `inf`/`infinity`/`nan`, surrounded by whitespace. -/
def py_float_accepts (s : String) : Bool :=
  let cs0 := py_strip_chars s.toList
  let cs := match cs0 with
    | c :: r => if c == '+' || c == '-' then r else cs0
    | [] => cs0
  let low := cs.map Char.toLower
  if low == "inf".toList || low == "infinity".toList || low == "nan".toList then true
  else
    match float_mantissa cs with
    | some rest =>
      if rest.isEmpty then true
      else
        match float_exponent rest with
        | some rest2 => rest2.isEmpty
        | none => false
    | none => false

/-- Split a character list at commas (for the currency digit-group check). -/
def split_commas : List Char → List (List Char)
  | [] => [[]]
  | c :: rest =>
    if c == ',' then [] :: split_commas rest
    else
      match split_commas rest with
      | r :: rs => (c :: r) :: rs
      | [] => [[c]]

/-- The digits-and-commas core of the currency regex
`\d{1,3}(,?\d{3})*`: the first comma-separated run is one or more digits,
every later run is a nonempty multiple of three digits. -/
def currency_digit_runs (cs : List Char) : Bool :=
  match split_commas cs with
  | first :: others =>
    (decide (1 ≤ first.length) && first.all Char.isDigit) &&
    others.all (fun run =>
      decide (3 ≤ run.length) && run.length % 3 == 0 && run.all Char.isDigit)
  | [] => false

/-- Regex `^[€$£]?\s*\d{1,3}(,?\d{3})*(\.\d{2})?$` from `validate_currency`. -/
def match_currency (cs0 : List Char) : Bool :=
  let cs1 := match cs0 with
    | c :: r => if c == '€' || c == '$' || c == '£' then r else cs0
    | [] => cs0
  let cs2 := cs1.dropWhile Char.isWhitespace
  match cs2.reverse with
  | b :: a :: '.' :: restRev =>
    if a.isDigit && b.isDigit then currency_digit_runs restRev.reverse
    else currency_digit_runs cs2
  | _ => currency_digit_runs cs2

/-- Character class `[a-zA-Z0-9._%+-]` (email local part). -/
def is_local_char (c : Char) : Bool :=
  c.isAlphanum || c == '.' || c == '_' || c == '%' || c == '+' || c == '-'

/-- Character class `[a-zA-Z0-9.-]` (email domain part). -/
def is_domain_char (c : Char) : Bool :=
  c.isAlphanum || c == '.' || c == '-'

/-- Regex `^[a-zA-Z0-9._%+-]+@[a-zA-Z0-9.-]+\.[a-zA-Z]{2,}$` from
`validate_email`.  The local part runs to the first `@`; the domain matches
if some dot splits it into a nonempty domain-class prefix and a 2+-letter
alphabetic suffix. -/
def match_email (cs : List Char) : Bool :=
  let loc := cs.takeWhile (fun c => !(c == '@'))
  let rest := cs.dropWhile (fun c => !(c == '@'))
  match rest with
  | '@' :: dom =>
    (!loc.isEmpty) && loc.all is_local_char &&
    ((List.range dom.length).any (fun i =>
      match dom.drop i with
      | '.' :: suf =>
        (!(dom.take i).isEmpty) && (dom.take i).all is_domain_char &&
        decide (2 ≤ suf.length) && suf.all Char.isAlpha
      | _ => false))
  | _ => false

/-- Regex `^\+?\d{7,15}$` applied to the separator-stripped phone string. -/
def match_phone_digits (cs : List Char) : Bool :=
  let cs2 := match cs with
    | '+' :: r => r
    | _ => cs
  cs2.all Char.isDigit && decide (7 ≤ cs2.length) && decide (cs2.length ≤ 15)

/-- Character class `[A-Z]`. -/
def is_upper_alpha (c : Char) : Bool := decide ('A' ≤ c) && decide (c ≤ 'Z')

/-- Regex `^[A-Z]{2}\d{2}[A-Z0-9]{1,30}$` from `validate_iban`. -/
def match_iban (cs : List Char) : Bool :=
  match cs with
  | a :: b :: c :: d :: rest =>
    is_upper_alpha a && is_upper_alpha b && c.isDigit && d.isDigit &&
    (!rest.isEmpty) && decide (rest.length ≤ 30) &&
    rest.all (fun x => is_upper_alpha x || x.isDigit)
  | _ => false

/-- `FieldValidator.validate_date`. -/
def validate_date (v : Value) : Bool × Option String :=
  if is_empty v then (true, none)
  else
    let cs := py_strip_chars (pyStr v).toList
    if match_date_iso cs || match_date_dmy_slash cs || match_date_dmy_dash cs ||
       match_date_text cs then (true, none)
    else (false, some ("Invalid date format: " ++ pyStr v))

/-- `FieldValidator.validate_number`. -/
def validate_number (v : Value) : Bool × Option String :=
  if is_empty v then (true, none)
  else
    let clean := String.mk (py_strip_chars ((pyStr v).toList.filter
      (fun c => !(c == ',' || c == '€' || c == '$' || c == '£'))))
    if py_float_accepts clean then (true, none)
    else (false, some ("Invalid number: " ++ pyStr v))

/-- `FieldValidator.validate_currency`. -/
def validate_currency (v : Value) : Bool × Option String :=
  if is_empty v then (true, none)
  else if match_currency (py_strip_chars (pyStr v).toList) then (true, none)
  else (false, some ("Invalid currency format: " ++ pyStr v))

/-- `FieldValidator.validate_email`. -/
def validate_email (v : Value) : Bool × Option String :=
  if is_empty v then (true, none)
  else if match_email (py_strip_chars (pyStr v).toList) then (true, none)
  else (false, some ("Invalid email format: " ++ pyStr v))

/-- `FieldValidator.validate_phone`. -/
def validate_phone (v : Value) : Bool × Option String :=
  if is_empty v then (true, none)
  else
    let clean := (pyStr v).toList.filter
      (fun c => !(c.isWhitespace || c == '-' || c == '(' || c == ')' || c == '.'))
    if match_phone_digits clean then (true, none)
    else (false, some ("Invalid phone format: " ++ pyStr v))

/-- `FieldValidator.validate_iban`. -/
def validate_iban (v : Value) : Bool × Option String :=
  if is_empty v then (true, none)
  else
    let clean := ((pyStr v).toList.filter (fun c => !(c == ' '))).map Char.toUpper
    if match_iban clean then (true, none)
    else (false, some ("Invalid IBAN format: " ++ pyStr v))

/-- `FieldValidator.validate_by_type`: dispatch on the field type; types
without a dedicated validator accept any value (after the emptiness check, as
in the source). -/
def validate_by_type (v : Value) (t : FieldType) : Bool × Option String :=
  match t with
  | .date => validate_date v
  | .number => validate_number v
  | .currency => validate_currency v
  | .email => validate_email v
  | .phone => validate_phone v
  | .iban => validate_iban v
  | _ => if is_empty v then (true, none) else (true, none)

/-- `FieldAssessor.assess_field`: classify one field.  The first argument is
the assessor's configured `min_confidence_threshold`. -/
def assess_field (min_confidence_threshold : ℚ) (name : String) (value : Value)
    (confidence : ℚ) (metadata : Option FieldMetadata) (source_page : Option Nat) :
    FieldResult :=
  let result : FieldResult :=
    { name := name, value := value, confidence := confidence, source_page := source_page }
  if is_empty value then
    if (match metadata with | some m => m.required | none => false) then
      { result with status := .unfilled, notes := "Required field is unfilled" }
    else { result with status := .unfilled }
  else
    let min_conf := match metadata with
      | some m => m.min_confidence
      | none => min_confidence_threshold
    let result :=
      if confidence < min_conf then
        { result with status := .low_confidence, notes := "Confidence below threshold" }
      else result
    match metadata with
    | some m =>
      let vr := validate_by_type value m.field_type
      if vr.1 = false then
        { result with
          status := .invalid
          validation_errors := result.validation_errors ++ [vr.2.getD ""]
          notes := "Validation failed" }
      else if result.status ≠ .low_confidence then { result with status := .filled }
      else result
    | none =>
      if result.status ≠ .low_confidence then { result with status := .filled }
      else result

/-- The reserved metadata keys skipped by `assess_extraction`
(`if field_name in ['doc_type_id', 'page_count']: continue`). -/
def is_reserved_key (k : String) : Bool :=
  k == "doc_type_id" || k == "page_count"

/-- One iteration of the `assess_extraction` loop body. -/
def assess_step (thr : ℚ) (confidence_scores : List (String × ℚ))
    (metadata_map : List (String × FieldMetadata))
    (report : ExtractionReport) (p : String × Value) : ExtractionReport :=
  if is_reserved_key p.1 then report
  else
    let confidence := (dlookup confidence_scores p.1).getD 0
    let metadata := dlookup metadata_map p.1
    let fr := assess_field thr p.1 p.2 confidence metadata none
    let report1 := { report with
      field_results := dset report.field_results p.1 fr
      total_fields := report.total_fields + 1 }
    match fr.status with
    | .filled => { report1 with filled_fields := report1.filled_fields + 1 }
    | .unfilled => { report1 with
        unfilled_fields := report1.unfilled_fields + 1
        flagged_field_names := report1.flagged_field_names ++ [p.1] }
    | .low_confidence => { report1 with
        low_confidence_fields := report1.low_confidence_fields + 1
        flagged_field_names := report1.flagged_field_names ++ [p.1] }
    | .invalid => { report1 with
        invalid_fields := report1.invalid_fields + 1
        flagged_field_names := report1.flagged_field_names ++ [p.1] }
    | .needs_review => { report1 with
        needs_review_fields := report1.needs_review_fields + 1
        flagged_field_names := report1.flagged_field_names ++ [p.1] }

/-- `FieldAssessor.assess_extraction`: assess every non-reserved key of
`extracted_data` in iteration order, then fill in the average confidence. -/
def assess_extraction (thr : ℚ) (extracted_data : List (String × Value))
    (confidence_scores : List (String × ℚ))
    (metadata_map : List (String × FieldMetadata)) : ExtractionReport :=
  let report := extracted_data.foldl (assess_step thr confidence_scores metadata_map) {}
  if 0 < report.total_fields then
    { report with average_confidence :=
        (report.field_results.map (fun q => q.2.confidence)).sum / (report.total_fields : ℚ) }
  else report

/-- The per-key default shape used by the orchestrator and the extractor:
`[] if isinstance(v, list) else ""`. -/
def default_shape (v : Value) : Value :=
  match v with
  | .vList _ => .vList []
  | _ => .vStr ""

/-- Inner loop of `AgenticOCR._merge_extractions`: merge one page's
extraction into the accumulator (only keys already present are considered,
and only an empty current value is replaced by a non-empty new one). -/
def merge_page (merged : List (String × Value)) (extraction : List (String × Value)) :
    List (String × Value) :=
  extraction.foldl (fun m kv =>
    match dlookup m kv.1 with
    | none => m
    | some current =>
      if is_empty current = true ∧ is_empty kv.2 = false then dset m kv.1 kv.2 else m)
    merged

/-- `AgenticOCR._merge_extractions` (first non-empty wins, in page order). -/
def merge_extractions (extractions : List (List (String × Value)))
    (schema : List (String × Value)) : List (String × Value) :=
  extractions.foldl merge_page (schema.map (fun p => (p.1, default_shape p.2)))

/-- Inner loop of `AgenticOCR._merge_confidences`: fold one page's confidence
dict into the accumulator, keeping the larger value. -/
def conf_page (merged : List (String × ℚ)) (confidences : List (String × ℚ)) :
    List (String × ℚ) :=
  confidences.foldl (fun m kv =>
    match dlookup m kv.1 with
    | none => dset m kv.1 kv.2
    | some old => if old < kv.2 then dset m kv.1 kv.2 else m)
    merged

/-- `AgenticOCR._merge_confidences` (max across pages). -/
def merge_confidences (all_confidences : List (List (String × ℚ))) :
    List (String × ℚ) :=
  all_confidences.foldl conf_page []

/-- The body of the `for field_name in flagged_fields` update loop inside
`AgenticOCR._retry_flagged_fields`. -/
def retry_field_step (extracted : List (String × Value))
    (confidences : List (String × ℚ))
    (st : List (String × Value) × List (String × ℚ)) (field_name : String) :
    List (String × Value) × List (String × ℚ) :=
  match dlookup extracted field_name with
  | none => st
  | some new_value =>
    let new_conf := (dlookup confidences field_name).getD 0
    let old_conf := (dlookup st.2 field_name).getD 0
    if is_empty new_value = false ∧ old_conf < new_conf then
      (dset st.1 field_name new_value, dset st.2 field_name new_conf)
    else st

/-- Apply one retry pass's provider response to the current data and
confidences (the update loop of `_retry_flagged_fields`). -/
def retry_pass_update (flagged_fields : List String)
    (extracted : List (String × Value)) (confidences : List (String × ℚ))
    (st : List (String × Value) × List (String × ℚ)) :
    List (String × Value) × List (String × ℚ) :=
  flagged_fields.foldl (retry_field_step extracted confidences) st

/-- `{k: v for k, v in schema.items() if k in flagged_fields}`. -/
def focused_schema (schema : List (String × Value)) (flagged_fields : List String) :
    List (String × Value) :=
  schema.filter (fun p => flagged_fields.contains p.1)

/-- The `for attempt in range(2, max_retry_attempts + 1)` loop of
`_retry_flagged_fields`.  `extract` is the provider: given the attempt number
and the focused schema it returns that call's (values, confidences).  The
first numeric argument counts the remaining attempts, the second is the
current attempt number. -/
def retry_loop
    (extract : Nat → List (String × Value) → List (String × Value) × List (String × ℚ))
    (schema : List (String × Value)) (flagged_fields : List String) :
    Nat → Nat → List (String × Value) × List (String × ℚ) →
      List (String × Value) × List (String × ℚ)
  | 0, _, st => st
  | n + 1, attempt, st =>
    let focused := focused_schema schema flagged_fields
    if focused.isEmpty then st
    else
      let r := extract attempt focused
      retry_loop extract schema flagged_fields n (attempt + 1)
        (retry_pass_update flagged_fields r.1 r.2 st)

/-- `AgenticOCR._retry_flagged_fields`. -/
def retry_flagged_fields (max_retry_attempts : Nat)
    (extract : Nat → List (String × Value) → List (String × Value) × List (String × ℚ))
    (schema : List (String × Value))
    (current_data : List (String × Value)) (current_confidences : List (String × ℚ))
    (flagged_fields : List String) :
    List (String × Value) × List (String × ℚ) :=
  retry_loop extract schema flagged_fields (max_retry_attempts - 1) 2
    (current_data, current_confidences)

/-- The parts of `AgenticOCR.extract_document`'s result dict that the engine
computes (the remaining entries echo inputs and a timestamp). -/
structure ExtractDocumentResult where
  extracted_data : List (String × Value)
  confidence_scores : List (String × ℚ)
  assessment_report : ExtractionReport
  deriving DecidableEq, Repr

/-- `AgenticOCR.extract_document`: merge the per-page provider results,
assess, run the retry phase when fields are flagged and budget remains, and
re-assess.  `page_results` is the list of per-page provider responses of the
initial pass (already caught and post-processed by the extractor, see
`extract_fields_from_image`); `retry_extract` supplies the provider response
of each retry attempt. -/
def extract_document (max_retry_attempts : Nat) (thr : ℚ)
    (page_results : List (List (String × Value) × List (String × ℚ)))
    (retry_extract : Nat → List (String × Value) → List (String × Value) × List (String × ℚ))
    (schema : List (String × Value)) (metadata_map : List (String × FieldMetadata)) :
    ExtractDocumentResult :=
  let merged_data := merge_extractions (page_results.map Prod.fst) schema
  let merged_confidences := merge_confidences (page_results.map Prod.snd)
  let report := assess_extraction thr merged_data merged_confidences metadata_map
  if report.flagged_field_names ≠ [] ∧ 1 < max_retry_attempts then
    let dc := retry_flagged_fields max_retry_attempts retry_extract schema
      merged_data merged_confidences report.flagged_field_names
    { extracted_data := dc.1
      confidence_scores := dc.2
      assessment_report := assess_extraction thr dc.1 dc.2 metadata_map }
  else
    { extracted_data := merged_data
      confidence_scores := merged_confidences
      assessment_report := report }

/-- The successfully parsed payload of one provider call
(`result.get("fields", {})` and `result.get("confidence_scores", {})`). -/
structure RawResponse where
  fields : List (String × Value)
  confidence_scores : List (String × ℚ)
  deriving DecidableEq, Repr

/-- `OpenAIVisionExtractor._empty_results`. -/
def empty_results (schema : List (String × Value)) :
    List (String × Value) × List (String × ℚ) :=
  (schema.map (fun p => (p.1, default_shape p.2)),
   schema.map (fun p => (p.1, (0 : ℚ))))

/-- Clamp a confidence into `[0, 1]` (`max(0.0, min(1.0, float(v)))`). -/
def clamp01 (q : ℚ) : ℚ := max 0 (min 1 q)

/-- `OpenAIVisionExtractor.extract_fields_from_image` after the network/parse
step: a failed call (any exception or JSON decode error) is caught and turned
into `_empty_results`; a successful parse is back-filled so every schema key
is present, and confidences are clamped into `[0, 1]`. -/
def extract_fields_from_image (schema : List (String × Value))
    (raw : Except String RawResponse) :
    List (String × Value) × List (String × ℚ) :=
  match raw with
  | .error _ => empty_results schema
  | .ok r =>
    let extracted_values := schema.foldl (fun acc p =>
      if (dlookup acc p.1).isSome then acc else dset acc p.1 (default_shape p.2)) r.fields
    let confidence_scores := schema.foldl (fun acc p =>
      if (dlookup acc p.1).isSome then acc else dset acc p.1 0) r.confidence_scores
    (extracted_values, confidence_scores.map (fun p => (p.1, clamp01 p.2)))

/-- The confidence threshold effectively applied to a field:
`metadata.min_confidence` when metadata is present, the assessor's default
otherwise. -/
def effective_threshold (thr : ℚ) (metadata : Option FieldMetadata) : ℚ :=
  match metadata with
  | some m => m.min_confidence
  | none => thr

/-- The type-validation outcome effectively applied to a field: the declared
type's validator when metadata is present, vacuously true otherwise. -/
def validation_ok (v : Value) (metadata : Option FieldMetadata) : Bool :=
  match metadata with
  | some m => (validate_by_type v m.field_type).1
  | none => true

/-- The status assignment described by the spec's tie-break order: UNFILLED
first and exclusive, then INVALID over LOW_CONFIDENCE, FILLED as fallback.
A function of value emptiness, confidence vs. threshold, and the
type-validation outcome only. -/
def status_of_checks (thr : ℚ) (v : Value) (confidence : ℚ)
    (metadata : Option FieldMetadata) : FieldStatus :=
  if is_empty v then .unfilled
  else if validation_ok v metadata = false then .invalid
  else if confidence < effective_threshold thr metadata then .low_confidence
  else .filled

/-- The retry loop as the spec describes it (for comparison with
`retry_flagged_fields`): before each attempt the Assessor is re-run on the
current data and the flagged-field list is recomputed from that fresh report;
the loop stops as soon as the flagged list is empty or the budget is
exhausted.  The first numeric argument counts the remaining attempts, the
second is the current attempt number. -/
def spec_retry_loop (thr : ℚ)
    (extract : Nat → List (String × Value) → List (String × Value) × List (String × ℚ))
    (schema : List (String × Value)) (metadata_map : List (String × FieldMetadata)) :
    Nat → Nat → List (String × Value) × List (String × ℚ) →
      List (String × Value) × List (String × ℚ)
  | 0, _, st => st
  | n + 1, attempt, st =>
    let flagged := (assess_extraction thr st.1 st.2 metadata_map).flagged_field_names
    if flagged.isEmpty then st
    else
      let r := extract attempt (focused_schema schema flagged)
      spec_retry_loop thr extract schema metadata_map n (attempt + 1)
        (retry_pass_update flagged r.1 r.2 st)

/-- Spec-side description of the merged value of one field: the first
non-empty value the pages supply for it, in page order, defaulting to the
schema's empty shape. -/
def first_non_empty_value (extractions : List (List (String × Value))) (k : String) :
    Option Value :=
  (extractions.filterMap (fun e => dlookup e k)).find? (fun v => !(is_empty v))

/-- Spec-side description of the merged confidence of one field: the maximum
confidence observed for it across the pages that mention it. -/
def max_observed_confidence (all_confidences : List (List (String × ℚ))) (k : String) :
    Option ℚ :=
  match all_confidences.filterMap (fun cf => dlookup cf k) with
  | [] => none
  | c :: cs => some (cs.foldl max c)

/-- The `FieldResult` that `assess_extraction` computes for one entry of the
extracted data (confidence defaulted to 0 when missing, metadata looked up by
name). -/
def assessed_result (thr : ℚ) (confidence_scores : List (String × ℚ))
    (metadata_map : List (String × FieldMetadata)) (p : String × Value) : FieldResult :=
  assess_field thr p.1 p.2 ((dlookup confidence_scores p.1).getD 0)
    (dlookup metadata_map p.1) none

/-- Spec-side description of the flagged list: the non-reserved keys of the
extracted data whose assessed status is not FILLED, in encounter order. -/
def expected_flagged (thr : ℚ) (confidence_scores : List (String × ℚ))
    (metadata_map : List (String × FieldMetadata))
    (extracted_data : List (String × Value)) : List String :=
  (extracted_data.filter (fun p =>
    !(is_reserved_key p.1) &&
    !((assessed_result thr confidence_scores metadata_map p).status == .filled))).map
    Prod.fst

/-- Spec-side description of the assessed field map: one entry per
non-reserved key of the extracted data, in encounter order. -/
def expected_results (thr : ℚ) (confidence_scores : List (String × ℚ))
    (metadata_map : List (String × FieldMetadata))
    (extracted_data : List (String × Value)) : List (String × FieldResult) :=
  (extracted_data.filter (fun p => !(is_reserved_key p.1))).map
    (fun p => (p.1, assessed_result thr confidence_scores metadata_map p))

/-- The quality-score example report from the spec: 10 fields, 8 filled,
average confidence 0.9, 1 invalid. -/
def example_report : ExtractionReport :=
  { total_fields := 10
    filled_fields := 8
    invalid_fields := 1
    average_confidence := mkRat 9 10 }

theorem dlookup_dset_self {α : Type} (d : List (String × α)) (k : String) (v : α) :
    dlookup (dset d k v) k = some v := by
  induction d with
  | nil => simp [dset, dlookup]
  | cons p rest ih =>
    by_cases h : p.1 = k
    · simp [dset, dlookup, h]
    · simp [dset, dlookup, h, ih]

theorem dlookup_dset_ne {α : Type} (d : List (String × α)) (k k' : String) (v : α)
    (h : k' ≠ k) : dlookup (dset d k v) k' = dlookup d k' := by
  induction d with
  | nil => simp [dset, dlookup, Ne.symm h]
  | cons p rest ih =>
    by_cases hp : p.1 = k
    · subst hp
      simp [dset, dlookup, Ne.symm h, h]
    · by_cases hp' : p.1 = k'
      · simp [dset, dlookup, hp, hp', h]
      · simp [dset, dlookup, hp, hp', ih]

theorem dlookup_map_value {α β : Type} (f : α → β) (d : List (String × α)) (k : String) :
    dlookup (d.map (fun p => (p.1, f p.2))) k = (dlookup d k).map f := by
  induction d with
  | nil => simp [dlookup]
  | cons p rest ih =>
    by_cases h : p.1 = k
    · simp [dlookup, h]
    · simp [dlookup, h, ih]

theorem assess_field_status (thr : ℚ) (name : String) (v : Value) (c : ℚ)
    (md : Option FieldMetadata) (sp : Option Nat) :
    (assess_field thr name v c md sp).status = status_of_checks thr v c md := by
  by_cases he : is_empty v
  · cases md with
    | none => simp [assess_field, status_of_checks, he]
    | some m =>
      by_cases hr : m.required
      · simp [assess_field, status_of_checks, he, hr]
      · simp [assess_field, status_of_checks, he, hr]
  · cases md with
    | none =>
      by_cases hc : c < thr
      · simp [assess_field, status_of_checks, effective_threshold, validation_ok, he, hc]
      · simp [assess_field, status_of_checks, effective_threshold, validation_ok, he, hc]
    | some m =>
      by_cases hv : (validate_by_type v m.field_type).1
      · by_cases hc : c < m.min_confidence
        · simp [assess_field, status_of_checks, effective_threshold, validation_ok,
            he, hc, hv]
        · simp [assess_field, status_of_checks, effective_threshold, validation_ok,
            he, hc, hv]
      · by_cases hc : c < m.min_confidence
        · simp [assess_field, status_of_checks, effective_threshold, validation_ok,
            he, hc, hv]
        · simp [assess_field, status_of_checks, effective_threshold, validation_ok,
            he, hc, hv]

theorem assess_field_no_metadata_errors (thr : ℚ) (name : String) (v : Value) (c : ℚ)
    (sp : Option Nat) :
    (assess_field thr name v c none sp).validation_errors = [] := by
  by_cases he : is_empty v
  · simp [assess_field, he]
  · by_cases hc : c < thr
    · simp [assess_field, he, hc]
    · simp [assess_field, he, hc]

/-- Claim C4: when `assess_field` classifies a value, UNFILLED is checked
first and is exclusive (empty values skip the confidence and type checks);
otherwise INVALID takes precedence over LOW_CONFIDENCE; FILLED is the
fallback; and the status is a deterministic pure function of value emptiness,
confidence vs. threshold, and the type-validation outcome — inputs agreeing
on those three checks are assigned the same status. -/
theorem c4_assess_field_tie_break (thr : ℚ) (name : String) (v : Value) (c : ℚ)
    (md : Option FieldMetadata) (sp : Option Nat) :
    (assess_field thr name v c md sp).status = status_of_checks thr v c md ∧
    (∀ (thr' : ℚ) (name' : String) (v' : Value) (c' : ℚ)
        (md' : Option FieldMetadata) (sp' : Option Nat),
      is_empty v = is_empty v' →
      validation_ok v md = validation_ok v' md' →
      ((c < effective_threshold thr md) ↔ (c' < effective_threshold thr' md')) →
      (assess_field thr name v c md sp).status =
        (assess_field thr' name' v' c' md' sp').status) := by
  refine ⟨assess_field_status thr name v c md sp, ?_⟩
  intro thr' name' v' c' md' sp' h1 h2 h3
  rw [assess_field_status, assess_field_status]
  simp only [status_of_checks, h1, h2, h3]

/-- Witness for C4's determinism clause at a concrete input: two different
raw inputs agreeing on the three checks receive the same status. -/
theorem c4_assess_field_tie_break_witness :
    (assess_field (mkRat 6 10) "a" (Value.vStr "A") (mkRat 1 2) none none).status =
      (assess_field (mkRat 6 10) "b" (Value.vStr "BB") (mkRat 1 2) none none).status :=
  (c4_assess_field_tie_break (mkRat 6 10) "a" (Value.vStr "A") (mkRat 1 2) none none).2
    (mkRat 6 10) "b" (Value.vStr "BB") (mkRat 1 2) none none (by decide)
    (by decide) Iff.rfl

/-- Claim C8: a field assessed without metadata records no validation errors
and is never INVALID; the assessor's own default threshold still applies, so
an empty value is UNFILLED, a non-empty value below the default threshold is
LOW_CONFIDENCE, and otherwise the field is FILLED. -/
theorem c8_no_metadata_assessment (thr : ℚ) (name : String) (v : Value) (c : ℚ)
    (sp : Option Nat) :
    (assess_field thr name v c none sp).status =
      (if is_empty v then FieldStatus.unfilled
       else if c < thr then FieldStatus.low_confidence
       else FieldStatus.filled) ∧
    (assess_field thr name v c none sp).validation_errors = [] ∧
    (assess_field thr name v c none sp).status ≠ FieldStatus.invalid := by
  have h := assess_field_status thr name v c none sp
  have hchar : (assess_field thr name v c none sp).status =
      (if is_empty v then FieldStatus.unfilled
       else if c < thr then FieldStatus.low_confidence
       else FieldStatus.filled) := by
    rw [h]
    simp only [status_of_checks, validation_ok, effective_threshold]
    by_cases he : is_empty v <;> simp [he]
  refine ⟨hchar, assess_field_no_metadata_errors thr name v c sp, ?_⟩
  rw [hchar]
  by_cases he : is_empty v
  · simp [he]
  · by_cases hc : c < thr <;> simp [he, hc]

/-- Claim C5: for a report with positive total and well-formed counts and
average confidence, completion_rate is filled/total × 100 and quality_score
is the 50/30/20 weighted blend of the filled ratio, the average confidence
and the validation-pass ratio, expressed as a percentage in [0, 100]; the
spec's example (total 10, filled 8, average confidence 0.9, 1 invalid) scores
exactly 85; and both derived quantities are 0 when total_fields is 0.  In
this embedding both quantities are functions of the report, recomputed at
every use and never cached. -/
theorem c5_report_scores (r : ExtractionReport)
    (h0 : 0 < r.total_fields)
    (hf : r.filled_fields ≤ r.total_fields)
    (hi : r.invalid_fields ≤ r.total_fields)
    (ha0 : 0 ≤ r.average_confidence) (ha1 : r.average_confidence ≤ 1) :
    completion_rate r = ((r.filled_fields : ℚ) / (r.total_fields : ℚ)) * 100 ∧
    quality_score r =
      50 * ((r.filled_fields : ℚ) / (r.total_fields : ℚ)) +
      30 * r.average_confidence +
      20 * (((r.total_fields : ℚ) - (r.invalid_fields : ℚ)) / (r.total_fields : ℚ)) ∧
    0 ≤ quality_score r ∧ quality_score r ≤ 100 ∧
    quality_score example_report = 85 ∧
    completion_rate ({} : ExtractionReport) = 0 ∧
    quality_score ({} : ExtractionReport) = 0 := by
  have hne : r.total_fields ≠ 0 := Nat.pos_iff_ne_zero.mp h0
  have ht : (0 : ℚ) < (r.total_fields : ℚ) := by exact_mod_cast h0
  have hf' : ((r.filled_fields : ℚ)) ≤ (r.total_fields : ℚ) := by exact_mod_cast hf
  have hi' : ((r.invalid_fields : ℚ)) ≤ (r.total_fields : ℚ) := by exact_mod_cast hi
  have hfq : (0 : ℚ) ≤ (r.filled_fields : ℚ) := by positivity
  have hiq : (0 : ℚ) ≤ (r.invalid_fields : ℚ) := by positivity
  have hform : quality_score r =
      50 * ((r.filled_fields : ℚ) / (r.total_fields : ℚ)) +
      30 * r.average_confidence +
      20 * (((r.total_fields : ℚ) - (r.invalid_fields : ℚ)) / (r.total_fields : ℚ)) := by
    simp only [quality_score, if_neg hne]
    ring
  have ha : (r.filled_fields : ℚ) / (r.total_fields : ℚ) ≤ 1 := (div_le_one ht).mpr hf'
  have ha' : 0 ≤ (r.filled_fields : ℚ) / (r.total_fields : ℚ) := div_nonneg hfq ht.le
  have hc : ((r.total_fields : ℚ) - (r.invalid_fields : ℚ)) / (r.total_fields : ℚ) ≤ 1 :=
    (div_le_one ht).mpr (by linarith)
  have hc' : 0 ≤ ((r.total_fields : ℚ) - (r.invalid_fields : ℚ)) / (r.total_fields : ℚ) :=
    div_nonneg (by linarith) ht.le
  refine ⟨by simp [completion_rate, if_neg hne], hform, ?_, ?_, ?_, ?_, ?_⟩
  · rw [hform]; linarith
  · rw [hform]; linarith
  · simp only [quality_score, example_report]
    rw [Rat.mkRat_eq_divInt, Rat.divInt_eq_div]
    norm_num
  · simp [completion_rate]
  · simp [quality_score]

/-- Witness for C5 at the spec's example report, which satisfies all the
well-formedness hypotheses. -/
theorem c5_report_scores_witness :
    0 ≤ quality_score example_report ∧ quality_score example_report ≤ 100 :=
  ⟨(c5_report_scores example_report (by decide) (by decide) (by decide) (by decide)
      (by decide)).2.2.1,
   (c5_report_scores example_report (by decide) (by decide) (by decide) (by decide)
      (by decide)).2.2.2.1⟩

/-- Claim C9: for every declared field type, validating an empty value (None,
empty or whitespace-only string, or empty list) succeeds with no error
message. -/
theorem c9_empty_always_valid (t : FieldType) (v : Value) (h : is_empty v = true) :
    validate_by_type v t = (true, none) := by
  cases t <;>
    simp [validate_by_type, validate_date, validate_number, validate_currency,
      validate_email, validate_phone, validate_iban, h]

/-- Witness for C9 at concrete inputs: a whitespace-only string is empty and
validates for the date type, and an empty list validates for the iban type. -/
theorem c9_empty_always_valid_witness :
    validate_by_type (Value.vStr "   ") FieldType.date = (true, none) ∧
    validate_by_type (Value.vList []) FieldType.iban = (true, none) :=
  ⟨c9_empty_always_valid FieldType.date (Value.vStr "   ") (by decide),
   c9_empty_always_valid FieldType.iban (Value.vList []) (by decide)⟩

theorem dlookup_append {α : Type} (d1 d2 : List (String × α)) (k : String) :
    dlookup (d1 ++ d2) k =
      (match dlookup d1 k with
       | some v => some v
       | none => dlookup d2 k) := by
  induction d1 with
  | nil => simp [dlookup]
  | cons p rest ih =>
    by_cases h : p.1 = k
    · simp [dlookup, h]
    · simp [dlookup, h, ih]

theorem dset_not_mem {α : Type} (d : List (String × α)) (k : String) (v : α)
    (h : dlookup d k = none) : dset d k v = d ++ [(k, v)] := by
  induction d with
  | nil => simp [dset]
  | cons p rest ih =>
    by_cases hp : p.1 = k
    · simp [dlookup, hp] at h
    · simp [dlookup, hp] at h
      simp [dset, hp, ih h]

theorem assess_step_reserved (thr : ℚ) (confs : List (String × ℚ))
    (mm : List (String × FieldMetadata)) (rep : ExtractionReport) (p : String × Value)
    (h : is_reserved_key p.1 = true) :
    assess_step thr confs mm rep p = rep := by
  simp [assess_step, h]

theorem assess_step_fields (thr : ℚ) (confs : List (String × ℚ))
    (mm : List (String × FieldMetadata)) (rep : ExtractionReport) (p : String × Value)
    (h : is_reserved_key p.1 = false) :
    (assess_step thr confs mm rep p).total_fields = rep.total_fields + 1 ∧
    (assess_step thr confs mm rep p).field_results =
      dset rep.field_results p.1 (assessed_result thr confs mm p) ∧
    (assess_step thr confs mm rep p).filled_fields = rep.filled_fields +
      (if (assessed_result thr confs mm p).status = .filled then 1 else 0) ∧
    (assess_step thr confs mm rep p).unfilled_fields = rep.unfilled_fields +
      (if (assessed_result thr confs mm p).status = .unfilled then 1 else 0) ∧
    (assess_step thr confs mm rep p).low_confidence_fields = rep.low_confidence_fields +
      (if (assessed_result thr confs mm p).status = .low_confidence then 1 else 0) ∧
    (assess_step thr confs mm rep p).invalid_fields = rep.invalid_fields +
      (if (assessed_result thr confs mm p).status = .invalid then 1 else 0) ∧
    (assess_step thr confs mm rep p).needs_review_fields = rep.needs_review_fields +
      (if (assessed_result thr confs mm p).status = .needs_review then 1 else 0) ∧
    (assess_step thr confs mm rep p).flagged_field_names = rep.flagged_field_names ++
      (if (assessed_result thr confs mm p).status = .filled then [] else [p.1]) := by
  cases hst : (assessed_result thr confs mm p).status <;>
    · rw [assessed_result] at hst
      simp [assess_step, assessed_result, h, hst]

theorem status_indicator_sum (s : FieldStatus) :
    (if s = .filled then 1 else 0) + (if s = .unfilled then 1 else 0) +
      (if s = .low_confidence then 1 else 0) + (if s = .invalid then 1 else 0) +
      (if s = .needs_review then 1 else 0) = 1 := by
  cases s <;> simp

theorem assess_fold_inv (thr : ℚ) (confs : List (String × ℚ))
    (mm : List (String × FieldMetadata)) :
    ∀ (data : List (String × Value)) (rep : ExtractionReport),
      rep.filled_fields + rep.unfilled_fields + rep.low_confidence_fields +
          rep.invalid_fields + rep.needs_review_fields = rep.total_fields →
      rep.flagged_field_names.length + rep.filled_fields = rep.total_fields →
      ((data.foldl (assess_step thr confs mm) rep).filled_fields +
          (data.foldl (assess_step thr confs mm) rep).unfilled_fields +
          (data.foldl (assess_step thr confs mm) rep).low_confidence_fields +
          (data.foldl (assess_step thr confs mm) rep).invalid_fields +
          (data.foldl (assess_step thr confs mm) rep).needs_review_fields =
        (data.foldl (assess_step thr confs mm) rep).total_fields) ∧
      ((data.foldl (assess_step thr confs mm) rep).flagged_field_names.length +
          (data.foldl (assess_step thr confs mm) rep).filled_fields =
        (data.foldl (assess_step thr confs mm) rep).total_fields) ∧
      (data.foldl (assess_step thr confs mm) rep).flagged_field_names =
        rep.flagged_field_names ++ expected_flagged thr confs mm data := by
  intro data
  induction data with
  | nil =>
    intro rep h1 h2
    simpa [expected_flagged] using ⟨h1, h2⟩
  | cons p rest ih =>
    intro rep h1 h2
    by_cases hres : is_reserved_key p.1
    · have hstep : assess_step thr confs mm rep p = rep :=
        assess_step_reserved thr confs mm rep p hres
      have hexp : expected_flagged thr confs mm (p :: rest) =
          expected_flagged thr confs mm rest := by
        simp [expected_flagged, hres]
      simp only [List.foldl_cons, hstep, hexp]
      exact ih rep h1 h2
    · have hres' : is_reserved_key p.1 = false := by
        simpa using hres
      obtain ⟨ht, hfr, hfi, hun, hlo, hin, hnr, hfl⟩ :=
        assess_step_fields thr confs mm rep p hres'
      have hsum := status_indicator_sum (assessed_result thr confs mm p).status
      have h1' : (assess_step thr confs mm rep p).filled_fields +
          (assess_step thr confs mm rep p).unfilled_fields +
          (assess_step thr confs mm rep p).low_confidence_fields +
          (assess_step thr confs mm rep p).invalid_fields +
          (assess_step thr confs mm rep p).needs_review_fields =
          (assess_step thr confs mm rep p).total_fields := by
        rw [ht, hfi, hun, hlo, hin, hnr]
        omega
      have h2' : (assess_step thr confs mm rep p).flagged_field_names.length +
          (assess_step thr confs mm rep p).filled_fields =
          (assess_step thr confs mm rep p).total_fields := by
        rw [ht, hfi, hfl, List.length_append]
        by_cases hst : (assessed_result thr confs mm p).status = .filled
        · simp only [hst, if_pos rfl]
          simp
          omega
        · simp only [if_neg hst]
          simp
          omega
      obtain ⟨iA, iB, iC⟩ := ih (assess_step thr confs mm rep p) h1' h2'
      refine ⟨by simpa using iA, by simpa using iB, ?_⟩
      simp only [List.foldl_cons]
      rw [iC, hfl]
      by_cases hst : (assessed_result thr confs mm p).status = .filled
      · have hexp : expected_flagged thr confs mm (p :: rest) =
            expected_flagged thr confs mm rest := by
          simp [expected_flagged, hres', hst]
        simp [hexp, hst]
      · have hexp : expected_flagged thr confs mm (p :: rest) =
            p.1 :: expected_flagged thr confs mm rest := by
          simp [expected_flagged, hres', hst]
        simp [hexp, hst]

/-- Claim C10: every report produced by `assess_extraction` satisfies the
count identity filled + unfilled + low_confidence + invalid + needs_review =
total, its flagged list is exactly the non-reserved assessed fields whose
status is not FILLED in encounter order, and the flagged list's length equals
total minus filled. -/
theorem c10_count_identity (thr : ℚ) (data : List (String × Value))
    (confs : List (String × ℚ)) (mm : List (String × FieldMetadata)) :
    (assess_extraction thr data confs mm).filled_fields +
        (assess_extraction thr data confs mm).unfilled_fields +
        (assess_extraction thr data confs mm).low_confidence_fields +
        (assess_extraction thr data confs mm).invalid_fields +
        (assess_extraction thr data confs mm).needs_review_fields =
      (assess_extraction thr data confs mm).total_fields ∧
    (assess_extraction thr data confs mm).flagged_field_names =
      expected_flagged thr confs mm data ∧
    (assess_extraction thr data confs mm).flagged_field_names.length +
        (assess_extraction thr data confs mm).filled_fields =
      (assess_extraction thr data confs mm).total_fields := by
  have h := assess_fold_inv thr confs mm data {} (by simp) (by simp)
  obtain ⟨hA, hB, hC⟩ := h
  simp only [assess_extraction]
  split
  · exact ⟨by simpa using hA, by simpa using hC, by simpa using hB⟩
  · exact ⟨hA, by simpa using hC, hB⟩

theorem assess_fold_results (thr : ℚ) (confs : List (String × ℚ))
    (mm : List (String × FieldMetadata)) :
    ∀ (data : List (String × Value)) (rep : ExtractionReport),
      (data.map Prod.fst).Nodup →
      (∀ k, k ∈ data.map Prod.fst → is_reserved_key k = false →
        dlookup rep.field_results k = none) →
      (data.foldl (assess_step thr confs mm) rep).field_results =
        rep.field_results ++ expected_results thr confs mm data ∧
      (data.foldl (assess_step thr confs mm) rep).total_fields =
        rep.total_fields + (data.filter (fun p => !(is_reserved_key p.1))).length := by
  intro data
  induction data with
  | nil =>
    intro rep _ _
    simp [expected_results]
  | cons p rest ih =>
    intro rep hnd hnone
    have hnd' : (p.1 :: rest.map Prod.fst).Nodup := by simpa using hnd
    have hndtail : (rest.map Prod.fst).Nodup := (List.nodup_cons.mp hnd').2
    have hhead : p.1 ∉ rest.map Prod.fst := (List.nodup_cons.mp hnd').1
    by_cases hres : is_reserved_key p.1
    · have hstep : assess_step thr confs mm rep p = rep :=
        assess_step_reserved thr confs mm rep p hres
      have hexp : expected_results thr confs mm (p :: rest) =
          expected_results thr confs mm rest := by
        simp [expected_results, hres]
      have hfil : (p :: rest).filter (fun q => !(is_reserved_key q.1)) =
          rest.filter (fun q => !(is_reserved_key q.1)) := by
        simp [List.filter_cons, hres]
      simp only [List.foldl_cons, hstep, hexp, hfil]
      exact ih rep hndtail (fun k hk hkres => hnone k (by simp [hk]) hkres)
    · have hres' : is_reserved_key p.1 = false := by simpa using hres
      obtain ⟨ht, hfr, _, _, _, _, _, _⟩ := assess_step_fields thr confs mm rep p hres'
      have hplook : dlookup rep.field_results p.1 = none :=
        hnone p.1 (by simp) hres'
      have hfr' : (assess_step thr confs mm rep p).field_results =
          rep.field_results ++ [(p.1, assessed_result thr confs mm p)] := by
        rw [hfr, dset_not_mem _ _ _ hplook]
      have hnone' : ∀ k, k ∈ rest.map Prod.fst → is_reserved_key k = false →
          dlookup (assess_step thr confs mm rep p).field_results k = none := by
        intro k hk hkres
        rw [hfr', dlookup_append]
        have h1 : dlookup rep.field_results k = none :=
          hnone k (by simp [hk]) hkres
        have h2 : p.1 ≠ k := by
          intro he
          exact hhead (he ▸ hk)
        simp [h1, dlookup, h2]
      obtain ⟨iA, iB⟩ := ih (assess_step thr confs mm rep p) hndtail hnone'
      simp only [List.foldl_cons]
      constructor
      · rw [iA, hfr']
        have hexp : expected_results thr confs mm (p :: rest) =
            (p.1, assessed_result thr confs mm p) :: expected_results thr confs mm rest := by
          simp [expected_results, hres']
        rw [hexp]
        simp
      · rw [iB, ht]
        have hfil : ((p :: rest).filter (fun q => !(is_reserved_key q.1))).length =
            (rest.filter (fun q => !(is_reserved_key q.1))).length + 1 := by
          simp [List.filter_cons, hres']
        omega

/-- Claim C6 (amended): after `assess_extraction`, every key of the extracted
data except the two reserved keys `doc_type_id` and `page_count` maps to
exactly one FieldResult — the report's field map is precisely the assessed
entries of the non-reserved keys, in encounter order, with no extra or
missing keys — and total_fields equals the number of those keys. -/
theorem c6_field_results_amended (thr : ℚ) (data : List (String × Value))
    (confs : List (String × ℚ)) (mm : List (String × FieldMetadata))
    (h : (data.map Prod.fst).Nodup) :
    (assess_extraction thr data confs mm).field_results =
      expected_results thr confs mm data ∧
    (assess_extraction thr data confs mm).field_results.map Prod.fst =
      (data.filter (fun p => !(is_reserved_key p.1))).map Prod.fst ∧
    (assess_extraction thr data confs mm).total_fields =
      (data.filter (fun p => !(is_reserved_key p.1))).length := by
  obtain ⟨hA, hB⟩ := assess_fold_results thr confs mm data {} h (by simp [dlookup])
  have hA' : (assess_extraction thr data confs mm).field_results =
      expected_results thr confs mm data := by
    simp only [assess_extraction]
    split
    · simpa using hA
    · simpa using hA
  have hB' : (assess_extraction thr data confs mm).total_fields =
      (data.filter (fun p => !(is_reserved_key p.1))).length := by
    simp only [assess_extraction]
    split
    · simpa using hB
    · simpa using hB
  refine ⟨hA', ?_, hB'⟩
  rw [hA']
  simp [expected_results]

/-- Witness for C6's amended statement at a concrete input: one real field,
plus both reserved keys, all with distinct names. -/
theorem c6_field_results_amended_witness :
    (assess_extraction (mkRat 6 10)
        [("a", Value.vStr "1"), ("doc_type_id", Value.vStr "t"),
         ("page_count", Value.vStr "2")] [] []).field_results.map Prod.fst = ["a"] ∧
    (assess_extraction (mkRat 6 10)
        [("a", Value.vStr "1"), ("doc_type_id", Value.vStr "t"),
         ("page_count", Value.vStr "2")] [] []).total_fields = 1 := by
  have h := c6_field_results_amended (mkRat 6 10)
    [("a", Value.vStr "1"), ("doc_type_id", Value.vStr "t"),
     ("page_count", Value.vStr "2")] [] [] (by decide)
  exact ⟨h.2.1.trans (by decide), h.2.2.trans (by decide)⟩

/-- Counterexample to C6 as stated: `page_count` is not the `doc_type_id`
key, yet the code also skips it — the key `page_count` of the extracted data
gets no FieldResult and does not count towards total_fields (the claim would
require total_fields = 1 and an entry for it). -/
theorem c6_counterexample :
    ("page_count" : String) ≠ "doc_type_id" ∧
    dlookup (assess_extraction (mkRat 6 10)
        [("page_count", Value.vStr "2")] [] []).field_results "page_count" = none ∧
    (assess_extraction (mkRat 6 10)
        [("page_count", Value.vStr "2")] [] []).total_fields = 0 := by
  refine ⟨by decide, by decide, by decide⟩

theorem merge_page_not_mem (e : List (String × Value)) :
    ∀ (merged : List (String × Value)) (k : String),
      (∀ p ∈ e, p.1 ≠ k) →
      dlookup (merge_page merged e) k = dlookup merged k := by
  induction e with
  | nil => intro merged k _; rfl
  | cons kv rest ih =>
    intro merged k h
    have hkv : kv.1 ≠ k := h kv (by simp)
    have hrest : ∀ p ∈ rest, p.1 ≠ k := fun p hp => h p (by simp [hp])
    simp only [merge_page, List.foldl_cons]
    cases hl : dlookup merged kv.1 with
    | none =>
      simpa only [merge_page, hl] using ih merged k hrest
    | some current =>
      by_cases hc : is_empty current = true ∧ is_empty kv.2 = false
      · have := ih (dset merged kv.1 kv.2) k hrest
        simp only [merge_page] at this
        simp only [hl, if_pos hc, this]
        exact dlookup_dset_ne merged kv.1 k kv.2 (Ne.symm hkv)
      · simpa only [merge_page, hl, if_neg hc] using ih merged k hrest

theorem merge_page_lookup (e : List (String × Value)) :
    ∀ (merged : List (String × Value)) (k : String) (cur : Value),
      (e.map Prod.fst).Nodup →
      dlookup merged k = some cur →
      dlookup (merge_page merged e) k =
        some (if is_empty cur then
                (match dlookup e k with
                 | some v => if is_empty v then cur else v
                 | none => cur)
              else cur) := by
  induction e with
  | nil =>
    intro merged k cur _ hcur
    simp only [merge_page, List.foldl_nil, dlookup, hcur]
    cases h : is_empty cur <;> simp [h]
  | cons kv rest ih =>
    intro merged k cur hnd hcur
    have hnd' : (kv.1 :: rest.map Prod.fst).Nodup := by simpa using hnd
    have hndtail : (rest.map Prod.fst).Nodup := (List.nodup_cons.mp hnd').2
    by_cases hk : kv.1 = k
    · subst hk
      have hnotin : ∀ p ∈ rest, p.1 ≠ kv.1 := by
        intro p hp he
        exact (List.nodup_cons.mp hnd').1 (he ▸ List.mem_map_of_mem Prod.fst hp)
      simp only [merge_page, List.foldl_cons, hcur]
      have hlook : dlookup (kv :: rest) kv.1 = some kv.2 := by simp [dlookup]
      by_cases hc : is_empty cur = true ∧ is_empty kv.2 = false
      · have hpres := merge_page_not_mem rest (dset merged kv.1 kv.2) kv.1 hnotin
        simp only [merge_page] at hpres
        simp [if_pos hc, hpres, dlookup_dset_self, hlook, hc.1, hc.2]
      · have hpres := merge_page_not_mem rest merged kv.1 hnotin
        simp only [merge_page] at hpres
        simp only [if_neg hc, hpres, hcur, hlook]
        rcases he : is_empty cur with _ | _
        · simp [he] at hc ⊢
        · have hv : is_empty kv.2 = true := by
            rcases hv2 : is_empty kv.2 with _ | _
            · exact absurd ⟨he, hv2⟩ hc
            · rfl
          simp [he, hv]
    · have hlookrest : dlookup (kv :: rest) k = dlookup rest k := by
        simp [dlookup, hk]
      simp only [merge_page, List.foldl_cons, hlookrest]
      cases hl : dlookup merged kv.1 with
      | none =>
        simpa only [merge_page] using ih merged k cur hndtail hcur
      | some current =>
        by_cases hc : is_empty current = true ∧ is_empty kv.2 = false
        · have hcur' : dlookup (dset merged kv.1 kv.2) k = some cur := by
            rw [dlookup_dset_ne merged kv.1 k kv.2 (fun he => hk he.symm)]
            exact hcur
          simpa only [merge_page, hl, if_pos hc] using
            ih (dset merged kv.1 kv.2) k cur hndtail hcur'
        · simpa only [merge_page, hl, if_neg hc] using ih merged k cur hndtail hcur

theorem merge_fold_lookup (exts : List (List (String × Value))) :
    ∀ (merged : List (String × Value)) (k : String) (cur : Value),
      dlookup merged k = some cur →
      (∀ e ∈ exts, (e.map Prod.fst).Nodup) →
      dlookup (exts.foldl merge_page merged) k =
        some (if is_empty cur then
                ((exts.filterMap (fun e => dlookup e k)).find?
                  (fun v => !(is_empty v))).getD cur
              else cur) := by
  induction exts with
  | nil =>
    intro merged k cur hcur _
    simp only [List.foldl_nil, List.filterMap_nil, List.find?_nil, Option.getD_none, hcur]
    cases h : is_empty cur <;> simp [h]
  | cons e rest ih =>
    intro merged k cur hcur hnd
    have hnde : (e.map Prod.fst).Nodup := hnd e (by simp)
    have hndrest : ∀ x ∈ rest, (x.map Prod.fst).Nodup := fun x hx => hnd x (by simp [hx])
    have hstep := merge_page_lookup e merged k cur hnde hcur
    simp only [List.foldl_cons]
    rcases hce : is_empty cur with _ | _
    · have hstep' : dlookup (merge_page merged e) k = some cur := by
        rw [hstep]; simp [hce]
      rw [ih (merge_page merged e) k cur hstep' hndrest]
      simp [hce]
    · cases hl : dlookup e k with
      | none =>
        have hstep' : dlookup (merge_page merged e) k = some cur := by
          rw [hstep]; simp [hce, hl]
        rw [ih (merge_page merged e) k cur hstep' hndrest]
        simp [hce, hl, List.filterMap_cons]
      | some v =>
        rcases hv : is_empty v with _ | _
        · have hstep' : dlookup (merge_page merged e) k = some v := by
            rw [hstep]; simp [hce, hl, hv]
          rw [ih (merge_page merged e) k v hstep' hndrest]
          simp [hce, hl, hv, List.filterMap_cons, List.find?_cons]
        · have hstep' : dlookup (merge_page merged e) k = some cur := by
            rw [hstep]; simp [hce, hl, hv]
          rw [ih (merge_page merged e) k cur hstep' hndrest]
          simp [hce, hl, hv, List.filterMap_cons, List.find?_cons]

theorem if_lt_max (a c : ℚ) : (if a < c then c else a) = max a c := by
  rcases lt_or_ge a c with h | h
  · simp [h, max_eq_right h.le]
  · simp [not_lt.mpr h, max_eq_left h]

theorem conf_page_not_mem (cf : List (String × ℚ)) :
    ∀ (merged : List (String × ℚ)) (k : String),
      (∀ p ∈ cf, p.1 ≠ k) →
      dlookup (conf_page merged cf) k = dlookup merged k := by
  induction cf with
  | nil => intro merged k _; rfl
  | cons kv rest ih =>
    intro merged k h
    have hkv : kv.1 ≠ k := h kv (by simp)
    have hrest : ∀ p ∈ rest, p.1 ≠ k := fun p hp => h p (by simp [hp])
    simp only [conf_page, List.foldl_cons]
    cases hl : dlookup merged kv.1 with
    | none =>
      have := ih (dset merged kv.1 kv.2) k hrest
      simp only [conf_page] at this
      simp only [hl, this]
      exact dlookup_dset_ne merged kv.1 k kv.2 (Ne.symm hkv)
    | some old =>
      by_cases hc : old < kv.2
      · have := ih (dset merged kv.1 kv.2) k hrest
        simp only [conf_page] at this
        simp only [hl, if_pos hc, this]
        exact dlookup_dset_ne merged kv.1 k kv.2 (Ne.symm hkv)
      · simpa only [conf_page, hl, if_neg hc] using ih merged k hrest

theorem conf_page_lookup (cf : List (String × ℚ)) :
    ∀ (merged : List (String × ℚ)) (k : String),
      (cf.map Prod.fst).Nodup →
      dlookup (conf_page merged cf) k =
        (match dlookup merged k, dlookup cf k with
         | none, none => none
         | some a, none => some a
         | none, some c => some c
         | some a, some c => some (max a c)) := by
  induction cf with
  | nil =>
    intro merged k _
    simp only [conf_page, List.foldl_nil, dlookup]
    cases h : dlookup merged k <;> simp
  | cons kv rest ih =>
    intro merged k hnd
    have hnd' : (kv.1 :: rest.map Prod.fst).Nodup := by simpa using hnd
    have hndtail : (rest.map Prod.fst).Nodup := (List.nodup_cons.mp hnd').2
    by_cases hk : kv.1 = k
    · subst hk
      have hnotin : ∀ p ∈ rest, p.1 ≠ kv.1 := by
        intro p hp he
        exact (List.nodup_cons.mp hnd').1 (he ▸ List.mem_map_of_mem Prod.fst hp)
      have hlook : dlookup (kv :: rest) kv.1 = some kv.2 := by simp [dlookup]
      simp only [conf_page, List.foldl_cons, hlook]
      cases hl : dlookup merged kv.1 with
      | none =>
        have hpres := conf_page_not_mem rest (dset merged kv.1 kv.2) kv.1 hnotin
        simp only [conf_page] at hpres
        simp [hpres, dlookup_dset_self, hl]
      | some old =>
        by_cases hc : old < kv.2
        · have hpres := conf_page_not_mem rest (dset merged kv.1 kv.2) kv.1 hnotin
          simp only [conf_page] at hpres
          simp [if_pos hc, hpres, dlookup_dset_self, hl, max_eq_right hc.le]
        · have hpres := conf_page_not_mem rest merged kv.1 hnotin
          simp only [conf_page] at hpres
          simp [if_neg hc, hpres, hl, max_eq_left (not_lt.mp hc)]
    · have hlookrest : dlookup (kv :: rest) k = dlookup rest k := by
        simp [dlookup, hk]
      simp only [conf_page, List.foldl_cons, hlookrest]
      cases hl : dlookup merged kv.1 with
      | none =>
        have := ih (dset merged kv.1 kv.2) k hndtail
        simp only [conf_page] at this
        simp only [hl, this,
          dlookup_dset_ne merged kv.1 k kv.2 (fun he => hk he.symm)]
      | some old =>
        by_cases hc : old < kv.2
        · have := ih (dset merged kv.1 kv.2) k hndtail
          simp only [conf_page] at this
          simp only [hl, if_pos hc, this,
            dlookup_dset_ne merged kv.1 k kv.2 (fun he => hk he.symm)]
        · simpa only [conf_page, hl, if_neg hc] using ih merged k hndtail

theorem foldl_max_comm (l : List ℚ) :
    ∀ (a b : ℚ), l.foldl max (max a b) = max a (l.foldl max b) := by
  induction l with
  | nil => intro a b; rfl
  | cons e es ih =>
    intro a b
    simp only [List.foldl_cons, max_assoc, ih]

theorem max_observed_cons (cf : List (String × ℚ)) (rest : List (List (String × ℚ)))
    (k : String) (c : ℚ) (h : dlookup cf k = some c) :
    max_observed_confidence (cf :: rest) k =
      some (match max_observed_confidence rest k with
            | none => c
            | some m => max c m) := by
  simp only [max_observed_confidence, List.filterMap_cons, h]
  cases hr : rest.filterMap (fun cf => dlookup cf k) with
  | nil => rfl
  | cons d ds =>
    simp only [List.foldl_cons]
    rw [show max c d = max c d from rfl, ← foldl_max_comm]

theorem conf_fold_lookup (cfs : List (List (String × ℚ))) :
    ∀ (merged : List (String × ℚ)) (k : String),
      (∀ cf ∈ cfs, (cf.map Prod.fst).Nodup) →
      dlookup (cfs.foldl conf_page merged) k =
        (match dlookup merged k, max_observed_confidence cfs k with
         | none, none => none
         | some a, none => some a
         | none, some c => some c
         | some a, some c => some (max a c)) := by
  induction cfs with
  | nil =>
    intro merged k _
    simp only [List.foldl_nil, max_observed_confidence, List.filterMap_nil]
    cases h : dlookup merged k <;> simp
  | cons cf rest ih =>
    intro merged k hnd
    have hndcf : (cf.map Prod.fst).Nodup := hnd cf (by simp)
    have hndrest : ∀ x ∈ rest, (x.map Prod.fst).Nodup := fun x hx => hnd x (by simp [hx])
    have hstep := conf_page_lookup cf merged k hndcf
    simp only [List.foldl_cons]
    rw [ih (conf_page merged cf) k hndrest, hstep]
    cases hc : dlookup cf k with
    | none =>
      have hmo : max_observed_confidence (cf :: rest) k = max_observed_confidence rest k := by
        simp [max_observed_confidence, List.filterMap_cons, hc]
      rw [hmo]
      cases ha : dlookup merged k <;> rfl
    | some c =>
      rw [max_observed_cons cf rest k c hc]
      cases ha : dlookup merged k with
      | none =>
        cases hm : max_observed_confidence rest k <;> rfl
      | some a =>
        cases hm : max_observed_confidence rest k with
        | none => rfl
        | some m => simp [max_assoc]

/-- Claim C3: for every schema field, the merged value is the first non-empty
value in page order (later pages never override an already non-empty value),
while the merged confidence of any key is the maximum confidence observed for
it across all pages, independent of which page supplied the winning value. -/
theorem c3_merge_semantics (schema : List (String × Value))
    (extractions : List (List (String × Value)))
    (all_confidences : List (List (String × ℚ))) (k : String) (dv : Value)
    (hk : dlookup schema k = some dv)
    (hnd : ∀ e ∈ extractions, (e.map Prod.fst).Nodup)
    (hndc : ∀ cf ∈ all_confidences, (cf.map Prod.fst).Nodup) :
    dlookup (merge_extractions extractions schema) k =
      some ((first_non_empty_value extractions k).getD (default_shape dv)) ∧
    dlookup (merge_confidences all_confidences) k =
      max_observed_confidence all_confidences k := by
  constructor
  · have hinit : dlookup (schema.map (fun p => (p.1, default_shape p.2))) k =
        some (default_shape dv) := by
      rw [dlookup_map_value, hk]
      rfl
    have hemp : is_empty (default_shape dv) = true := by
      cases dv <;> simp [default_shape, is_empty, py_strip_chars]
    have h := merge_fold_lookup extractions
      (schema.map (fun p => (p.1, default_shape p.2))) k (default_shape dv) hinit hnd
    rw [merge_extractions, h, first_non_empty_value]
    simp [hemp]
  · have h := conf_fold_lookup all_confidences [] k hndc
    rw [merge_confidences, h]
    cases hm : max_observed_confidence all_confidences k <;> simp [dlookup]

/-- Witness for C3 at the spec's three-page example: pages supply "", "A",
"B" for field x with confidences 0.2, 0.5, 0.9; the merged value is "A"
(first non-empty in page order) and the merged confidence is 0.9 (the
maximum). -/
theorem c3_merge_semantics_witness :
    dlookup (merge_extractions
        [[("x", Value.vStr "")], [("x", Value.vStr "A")], [("x", Value.vStr "B")]]
        [("x", Value.vStr "")]) "x" = some (Value.vStr "A") ∧
    dlookup (merge_confidences
        [[("x", mkRat 2 10)], [("x", mkRat 5 10)], [("x", mkRat 9 10)]]) "x" =
      some (mkRat 9 10) := by
  have h := c3_merge_semantics [("x", Value.vStr "")]
    [[("x", Value.vStr "")], [("x", Value.vStr "A")], [("x", Value.vStr "B")]]
    [[("x", mkRat 2 10)], [("x", mkRat 5 10)], [("x", mkRat 9 10)]]
    "x" (Value.vStr "") (by decide) (by decide) (by decide)
  exact ⟨h.1.trans (by decide), h.2.trans (by decide)⟩

theorem retry_field_step_ne (extracted : List (String × Value))
    (confidences : List (String × ℚ))
    (st : List (String × Value) × List (String × ℚ)) (fn k : String) (h : fn ≠ k) :
    dlookup (retry_field_step extracted confidences st fn).1 k = dlookup st.1 k ∧
    dlookup (retry_field_step extracted confidences st fn).2 k = dlookup st.2 k := by
  simp only [retry_field_step]
  cases hl : dlookup extracted fn with
  | none => exact ⟨rfl, rfl⟩
  | some v =>
    dsimp only
    by_cases hc : is_empty v = false ∧
        (dlookup st.2 fn).getD 0 < (dlookup confidences fn).getD 0
    · rw [if_pos hc]
      exact ⟨dlookup_dset_ne st.1 fn k v (Ne.symm h),
             dlookup_dset_ne st.2 fn k _ (Ne.symm h)⟩
    · rw [if_neg hc]
      exact ⟨rfl, rfl⟩

theorem retry_fold_not_mem (flagged : List String) (extracted : List (String × Value))
    (confidences : List (String × ℚ)) :
    ∀ (st : List (String × Value) × List (String × ℚ)) (k : String),
      k ∉ flagged →
      dlookup (retry_pass_update flagged extracted confidences st).1 k = dlookup st.1 k ∧
      dlookup (retry_pass_update flagged extracted confidences st).2 k = dlookup st.2 k := by
  induction flagged with
  | nil => intro st k _; exact ⟨rfl, rfl⟩
  | cons fn rest ih =>
    intro st k hk
    have hkfn : fn ≠ k := fun he => hk (by simp [he])
    have hkrest : k ∉ rest := fun he => hk (by simp [he])
    simp only [retry_pass_update, List.foldl_cons]
    obtain ⟨hs1, hs2⟩ := retry_field_step_ne extracted confidences st fn k hkfn
    have := ih (retry_field_step extracted confidences st fn) k hkrest
    simp only [retry_pass_update] at this
    exact ⟨this.1.trans hs1, this.2.trans hs2⟩

theorem retry_pass_lookup (flagged : List String) (extracted : List (String × Value))
    (confidences : List (String × ℚ)) :
    ∀ (data : List (String × Value)) (confs : List (String × ℚ)) (k : String),
      flagged.Nodup →
      dlookup (retry_pass_update flagged extracted confidences (data, confs)).1 k =
        (if k ∈ flagged then
          match dlookup extracted k with
          | some v =>
            if is_empty v = false ∧
                (dlookup confs k).getD 0 < (dlookup confidences k).getD 0 then some v
            else dlookup data k
          | none => dlookup data k
         else dlookup data k) ∧
      dlookup (retry_pass_update flagged extracted confidences (data, confs)).2 k =
        (if k ∈ flagged then
          match dlookup extracted k with
          | some v =>
            if is_empty v = false ∧
                (dlookup confs k).getD 0 < (dlookup confidences k).getD 0 then
              some ((dlookup confidences k).getD 0)
            else dlookup confs k
          | none => dlookup confs k
         else dlookup confs k) := by
  induction flagged with
  | nil =>
    intro data confs k _
    simp [retry_pass_update]
  | cons fn rest ih =>
    intro data confs k hnd
    have hndtail : rest.Nodup := (List.nodup_cons.mp hnd).2
    by_cases hfn : fn = k
    · subst hfn
      have hkrest : fn ∉ rest := (List.nodup_cons.mp hnd).1
      have hmem : fn ∈ fn :: rest := by simp
      simp only [retry_pass_update, List.foldl_cons]
      have hpres := retry_fold_not_mem rest extracted confidences
        (retry_field_step extracted confidences (data, confs) fn) fn hkrest
      simp only [retry_pass_update] at hpres
      rw [hpres.1, hpres.2]
      simp only [retry_field_step]
      cases hl : dlookup extracted fn with
      | none => simp [hmem, hl]
      | some v =>
        by_cases hc : is_empty v = false ∧
            (dlookup confs fn).getD 0 < (dlookup confidences fn).getD 0
        · simp [hmem, hl, if_pos hc, dlookup_dset_self]
        · simp [hmem, hl, if_neg hc]
    · have hknotfn : ¬ k = fn := fun he => hfn he.symm
      simp only [retry_pass_update, List.foldl_cons, List.mem_cons, hknotfn, false_or]
      obtain ⟨hs1, hs2⟩ := retry_field_step_ne extracted confidences (data, confs) fn k hfn
      have hih := ih (retry_field_step extracted confidences (data, confs) fn).1
        (retry_field_step extracted confidences (data, confs) fn).2 k hndtail
      simp only [retry_pass_update] at hih
      rw [hs1, hs2] at hih
      exact hih

theorem retry_loop_not_mem
    (extract : Nat → List (String × Value) → List (String × Value) × List (String × ℚ))
    (schema : List (String × Value)) (flagged : List String) (k : String)
    (h : k ∉ flagged) :
    ∀ (n attempt : Nat) (st : List (String × Value) × List (String × ℚ)),
      dlookup (retry_loop extract schema flagged n attempt st).1 k = dlookup st.1 k ∧
      dlookup (retry_loop extract schema flagged n attempt st).2 k = dlookup st.2 k := by
  intro n
  induction n with
  | zero => intro attempt st; exact ⟨rfl, rfl⟩
  | succ m ih =>
    intro attempt st
    simp only [retry_loop]
    by_cases hf : (focused_schema schema flagged).isEmpty
    · rw [if_pos hf]
      exact ⟨rfl, rfl⟩
    · rw [if_neg hf]
      obtain ⟨hp1, hp2⟩ := retry_fold_not_mem flagged
        (extract attempt (focused_schema schema flagged)).1
        (extract attempt (focused_schema schema flagged)).2 st k h
      obtain ⟨hl1, hl2⟩ := ih (attempt + 1)
        (retry_pass_update flagged
          (extract attempt (focused_schema schema flagged)).1
          (extract attempt (focused_schema schema flagged)).2 st)
      exact ⟨hl1.trans hp1, hl2.trans hp2⟩

/-- Claim C2: during one retry pass, a flagged field's stored value and
confidence are replaced by the retry's value and confidence exactly when the
retry's value is non-empty and its confidence strictly exceeds the stored
confidence; in every other case (field absent from the retry response, empty
retry value, equal or lower confidence) both are unchanged, and keys outside
the flagged list are never modified — neither by one pass nor by the whole
retry loop. -/
theorem c2_retry_acceptance_rule (flagged : List String)
    (extracted : List (String × Value)) (confidences : List (String × ℚ))
    (data : List (String × Value)) (confs : List (String × ℚ)) (k : String)
    (hnd : flagged.Nodup) :
    (dlookup (retry_pass_update flagged extracted confidences (data, confs)).1 k =
      (if k ∈ flagged then
        match dlookup extracted k with
        | some v =>
          if is_empty v = false ∧
              (dlookup confs k).getD 0 < (dlookup confidences k).getD 0 then some v
          else dlookup data k
        | none => dlookup data k
       else dlookup data k)) ∧
    (dlookup (retry_pass_update flagged extracted confidences (data, confs)).2 k =
      (if k ∈ flagged then
        match dlookup extracted k with
        | some v =>
          if is_empty v = false ∧
              (dlookup confs k).getD 0 < (dlookup confidences k).getD 0 then
            some ((dlookup confidences k).getD 0)
          else dlookup confs k
        | none => dlookup confs k
       else dlookup confs k)) ∧
    (∀ (max_retry_attempts : Nat)
        (extract : Nat → List (String × Value) →
          List (String × Value) × List (String × ℚ))
        (schema : List (String × Value)),
      k ∉ flagged →
      dlookup (retry_flagged_fields max_retry_attempts extract schema data confs
          flagged).1 k = dlookup data k ∧
      dlookup (retry_flagged_fields max_retry_attempts extract schema data confs
          flagged).2 k = dlookup confs k) := by
  obtain ⟨h1, h2⟩ := retry_pass_lookup flagged extracted confidences data confs k hnd
  refine ⟨h1, h2, ?_⟩
  intro max_retry_attempts extract schema hk
  simpa only [retry_flagged_fields] using
    retry_loop_not_mem extract schema flagged k hk (max_retry_attempts - 1) 2
      (data, confs)

/-- Witness for C2 at the spec's retry-convergence example: a field "x"
stored as "A" with confidence 0.5; a retry answering "X" with confidence 0.8
replaces value and confidence, a retry answering with confidence 0.3 leaves
both unchanged, and an unflagged key "y" is untouched. -/
theorem c2_retry_acceptance_rule_witness :
    dlookup (retry_pass_update ["x"] [("x", Value.vStr "X")] [("x", mkRat 8 10)]
      ([("x", Value.vStr "A")], [("x", mkRat 5 10)])).1 "x" = some (Value.vStr "X") ∧
    dlookup (retry_pass_update ["x"] [("x", Value.vStr "X")] [("x", mkRat 8 10)]
      ([("x", Value.vStr "A")], [("x", mkRat 5 10)])).2 "x" = some (mkRat 8 10) ∧
    dlookup (retry_pass_update ["x"] [("x", Value.vStr "X")] [("x", mkRat 3 10)]
      ([("x", Value.vStr "A")], [("x", mkRat 5 10)])).1 "x" = some (Value.vStr "A") ∧
    dlookup (retry_pass_update ["x"] [("x", Value.vStr "X")] [("x", mkRat 8 10)]
      ([("x", Value.vStr "A"), ("y", Value.vStr "B")], [("x", mkRat 5 10)])).1 "y" =
      some (Value.vStr "B") := by
  have h1 := c2_retry_acceptance_rule ["x"] [("x", Value.vStr "X")]
    [("x", mkRat 8 10)] [("x", Value.vStr "A")] [("x", mkRat 5 10)] "x" (by decide)
  have h2 := c2_retry_acceptance_rule ["x"] [("x", Value.vStr "X")]
    [("x", mkRat 3 10)] [("x", Value.vStr "A")] [("x", mkRat 5 10)] "x" (by decide)
  have h3 := c2_retry_acceptance_rule ["x"] [("x", Value.vStr "X")]
    [("x", mkRat 8 10)] [("x", Value.vStr "A"), ("y", Value.vStr "B")]
    [("x", mkRat 5 10)] "y" (by decide)
  exact ⟨h1.1.trans (by decide), h1.2.1.trans (by decide), h2.1.trans (by decide),
    h3.1.trans (by decide)⟩

theorem retry_loop_foldl
    (extract : Nat → List (String × Value) → List (String × Value) × List (String × ℚ))
    (schema : List (String × Value)) (flagged : List String) :
    ∀ (n attempt : Nat) (st : List (String × Value) × List (String × ℚ)),
      retry_loop extract schema flagged n attempt st =
        (if (focused_schema schema flagged).isEmpty then st
         else (List.range' attempt n).foldl
           (fun acc t =>
             retry_pass_update flagged
               (extract t (focused_schema schema flagged)).1
               (extract t (focused_schema schema flagged)).2 acc) st) := by
  intro n
  induction n with
  | zero =>
    intro attempt st
    cases hf : (focused_schema schema flagged).isEmpty <;>
      simp [retry_loop, hf]
  | succ m ih =>
    intro attempt st
    by_cases hf : (focused_schema schema flagged).isEmpty
    · simp only [retry_loop, if_pos hf]
    · simp only [retry_loop, if_neg hf]
      rw [ih (attempt + 1)]
      rw [if_neg hf, List.range'_succ, List.foldl_cons]

/-- Claim C1 (amended): the retry phase runs every attempt 2 ..
max-retry-attempts against the SAME flagged-field list, the one computed from
the initial assessment — the Assessor is not re-run between retry passes and
the loop does not stop when a field stops being flagged; it exits early only
when no flagged field occurs in the schema (and is skipped entirely when the
budget max-retry-attempts, default 3 with the initial pass as attempt 1, is
not larger than 1).  The Assessor is re-run once, after the retry phase, so
the returned report is always a fresh assessment of the returned data and
confidences. -/
theorem c1_retry_loop_amended :
    (∀ (max_retry_attempts : Nat)
        (extract : Nat → List (String × Value) →
          List (String × Value) × List (String × ℚ))
        (schema : List (String × Value)) (data : List (String × Value))
        (confs : List (String × ℚ)) (flagged : List String),
      retry_flagged_fields max_retry_attempts extract schema data confs flagged =
        (if (focused_schema schema flagged).isEmpty then (data, confs)
         else (List.range' 2 (max_retry_attempts - 1)).foldl
           (fun acc t =>
             retry_pass_update flagged
               (extract t (focused_schema schema flagged)).1
               (extract t (focused_schema schema flagged)).2 acc) (data, confs))) ∧
    (∀ (max_retry_attempts : Nat) (thr : ℚ)
        (page_results : List (List (String × Value) × List (String × ℚ)))
        (retry_extract : Nat → List (String × Value) →
          List (String × Value) × List (String × ℚ))
        (schema : List (String × Value)) (mm : List (String × FieldMetadata)),
      (extract_document max_retry_attempts thr page_results retry_extract schema
          mm).assessment_report =
        assess_extraction thr
          (extract_document max_retry_attempts thr page_results retry_extract schema
            mm).extracted_data
          (extract_document max_retry_attempts thr page_results retry_extract schema
            mm).confidence_scores mm) := by
  constructor
  · intro max_retry_attempts extract schema data confs flagged
    simpa only [retry_flagged_fields] using
      retry_loop_foldl extract schema flagged (max_retry_attempts - 1) 2 (data, confs)
  · intro max_retry_attempts thr page_results retry_extract schema mm
    simp only [extract_document]
    split <;> rfl

/-- Counterexample to C1 as stated: one field "x", stored "A" with confidence
0.5, threshold 0.6, budget 3; the provider answers "X"/0.8 at attempt 2 and
"Y"/0.9 at attempt 3.  Under the claim's loop (fresh report and recomputed
flagged list each iteration, stop when no field is flagged) the run stops
after attempt 2 with "X"/0.8; the code's loop keeps the stale flagged list,
issues attempt 3 and ends with "Y"/0.9. -/
theorem c1_counterexample :
    dlookup (retry_flagged_fields 3
        (fun attempt _ =>
          if attempt = 2 then ([("x", Value.vStr "X")], [("x", mkRat 8 10)])
          else ([("x", Value.vStr "Y")], [("x", mkRat 9 10)]))
        [("x", Value.vStr "")] [("x", Value.vStr "A")] [("x", mkRat 1 2)]
        ["x"]).1 "x" = some (Value.vStr "Y") ∧
    dlookup (retry_flagged_fields 3
        (fun attempt _ =>
          if attempt = 2 then ([("x", Value.vStr "X")], [("x", mkRat 8 10)])
          else ([("x", Value.vStr "Y")], [("x", mkRat 9 10)]))
        [("x", Value.vStr "")] [("x", Value.vStr "A")] [("x", mkRat 1 2)]
        ["x"]).2 "x" = some (mkRat 9 10) ∧
    dlookup (spec_retry_loop (mkRat 6 10)
        (fun attempt _ =>
          if attempt = 2 then ([("x", Value.vStr "X")], [("x", mkRat 8 10)])
          else ([("x", Value.vStr "Y")], [("x", mkRat 9 10)]))
        [("x", Value.vStr "")] [] 2 2
        ([("x", Value.vStr "A")], [("x", mkRat 1 2)])).1 "x" = some (Value.vStr "X") ∧
    dlookup (spec_retry_loop (mkRat 6 10)
        (fun attempt _ =>
          if attempt = 2 then ([("x", Value.vStr "X")], [("x", mkRat 8 10)])
          else ([("x", Value.vStr "Y")], [("x", mkRat 9 10)]))
        [("x", Value.vStr "")] [] 2 2
        ([("x", Value.vStr "A")], [("x", mkRat 1 2)])).2 "x" = some (mkRat 8 10) := by
  refine ⟨by decide, by decide, by decide, by decide⟩

theorem merge_page_all_empty (e : List (String × Value)) :
    ∀ (merged : List (String × Value)),
      (∀ p ∈ e, is_empty p.2 = true) →
      merge_page merged e = merged := by
  induction e with
  | nil => intro merged _; rfl
  | cons kv rest ih =>
    intro merged h
    have hkv : is_empty kv.2 = true := h kv (by simp)
    have hrest : ∀ p ∈ rest, is_empty p.2 = true := fun p hp => h p (by simp [hp])
    simp only [merge_page, List.foldl_cons]
    cases hl : dlookup merged kv.1 with
    | none => simpa only [merge_page] using ih merged hrest
    | some current =>
      have hc : ¬(is_empty current = true ∧ is_empty kv.2 = false) := by
        rintro ⟨_, hfalse⟩
        simp [hkv] at hfalse
      simpa only [merge_page, hl, if_neg hc] using ih merged hrest

/-- Claim C7: a provider call that raises or fails to parse is caught and
turned into the empty result: every key of the requested schema subset maps
to its empty default shape with confidence 0.0, the call returns normally
instead of propagating the failure, and such an all-empty page contributes
nothing to the value merge — the orchestration continues with the remaining
pages exactly as if the failed page were absent. -/
theorem c7_provider_failure_swallowed (schema : List (String × Value)) (e : String) :
    extract_fields_from_image schema (Except.error e) = empty_results schema ∧
    (∀ (k : String) (dv : Value), dlookup schema k = some dv →
      dlookup (extract_fields_from_image schema (Except.error e)).1 k =
        some (default_shape dv) ∧
      is_empty (default_shape dv) = true ∧
      dlookup (extract_fields_from_image schema (Except.error e)).2 k = some 0) ∧
    (∀ (before after : List (List (String × Value)))
        (schema2 : List (String × Value)),
      merge_extractions
          (before ++ (extract_fields_from_image schema (Except.error e)).1 :: after)
          schema2 =
        merge_extractions (before ++ after) schema2) := by
  refine ⟨rfl, ?_, ?_⟩
  · intro k dv hk
    refine ⟨?_, by cases dv <;> rfl, ?_⟩
    · have h := dlookup_map_value default_shape schema k
      simp only [extract_fields_from_image, empty_results]
      rw [h, hk]
      rfl
    · have h := dlookup_map_value (fun _ : Value => (0 : ℚ)) schema k
      simp only [extract_fields_from_image, empty_results]
      exact h.trans (by rw [hk]; rfl)
  · intro before after schema2
    have hempty : ∀ p ∈ (extract_fields_from_image schema (Except.error e)).1,
        is_empty p.2 = true := by
      intro p hp
      simp only [extract_fields_from_image, empty_results, List.mem_map] at hp
      obtain ⟨q, _, hq⟩ := hp
      rw [← hq]
      cases q.2 <;> rfl
    simp only [merge_extractions]
    rw [List.foldl_append, List.foldl_cons,
      merge_page_all_empty _ _ hempty, ← List.foldl_append]

/-- Witness for C7 at a concrete schema: a failing call over the schema
`{"x": ""}` yields the empty result, and key "x" carries confidence 0. -/
theorem c7_provider_failure_swallowed_witness :
    extract_fields_from_image [("x", Value.vStr "")] (Except.error "boom") =
      empty_results [("x", Value.vStr "")] ∧
    dlookup (extract_fields_from_image [("x", Value.vStr "")]
      (Except.error "boom")).2 "x" = some 0 := by
  have h := c7_provider_failure_swallowed [("x", Value.vStr "")] "boom"
  exact ⟨h.1, (h.2.1 "x" (Value.vStr "") (by decide)).2.2⟩
